import Mathlib

/-
  Verification of the incremental collection and aggregation pipeline of the
  go-stock-collector repository (a shallow embedding of its Go source).

  Conventions of the embedding:
  * Go float64 prices are modelled as exact rationals (ℚ); int64 as ℤ.
  * A Go time.Time value is modelled as `GoTime`: the absolute instant in unix
    seconds together with the wall-clock offset (in seconds) of the Location the
    value carries.  Go Locations (the deployment's Local zone, America/New_York)
    are modelled as fixed UTC offsets; daylight-saving transitions are not
    modelled, none of the verified properties depends on them.
  * Calendar conversion (time.Time.Format "2006-01-02", Year, YearDay, Weekday)
    is computed from the instant and offset with the standard civil-from-days
    algorithm.
-/

/-- A civil calendar date (what Go's Format "2006-01-02" serialises). -/
structure CivilDate where
  year : Int
  month : Int
  day : Int
deriving DecidableEq, Repr

/-- Days since the unix epoch 1970-01-01 of a civil date
(the classical Howard-Hinnant days-from-civil algorithm, floor divisions). -/
def daysFromCivil (c : CivilDate) : Int :=
  let y := if c.month ≤ 2 then c.year - 1 else c.year
  let era := Int.fdiv y 400
  let yoe := y - era * 400
  let mp := if c.month > 2 then c.month - 3 else c.month + 9
  let doy := Int.fdiv (153 * mp + 2) 5 + c.day - 1
  let doe := yoe * 365 + Int.fdiv yoe 4 - Int.fdiv yoe 100 + doy
  era * 146097 + doe - 719468

/-- Civil date of a days-since-epoch count (inverse of `daysFromCivil`). -/
def civilFromDays (z0 : Int) : CivilDate :=
  let z := z0 + 719468
  let era := Int.fdiv z 146097
  let doe := z - era * 146097
  let yoe := Int.fdiv (doe - Int.fdiv doe 1460 + Int.fdiv doe 36524 - Int.fdiv doe 146096) 365
  let y := yoe + era * 400
  let doy := doe - (365 * yoe + Int.fdiv yoe 4 - Int.fdiv yoe 100)
  let mp := Int.fdiv (5 * doy + 2) 153
  let d := doy - Int.fdiv (153 * mp + 2) 5 + 1
  let m := if mp < 10 then mp + 3 else mp - 9
  ⟨if m ≤ 2 then y + 1 else y, m, d⟩

/-- A Go time.Time value: absolute instant (unix seconds) plus the fixed
UTC offset, in seconds, of the Location it carries. -/
structure GoTime where
  unix : Int
  offset : Int
deriving DecidableEq, Repr

/-- Days since epoch of the wall-clock date the value displays
(its instant viewed in its own Location). -/
def localDays (t : GoTime) : Int :=
  Int.fdiv (t.unix + t.offset) 86400

/-- The calendar date a Go Format "2006-01-02" call prints for this value. -/
def localDate (t : GoTime) : CivilDate :=
  civilFromDays (localDays t)

/-- Go's t.Year(). -/
def yearOf (t : GoTime) : Int :=
  (localDate t).year

/-- Go's t.YearDay(): 1-based day of year in the value's own Location. -/
def yearDayOf (t : GoTime) : Int :=
  localDays t - daysFromCivil ⟨yearOf t, 1, 1⟩ + 1

/-- The America/New_York offset used for trading-date grouping
(modelled at Eastern standard time, UTC-5). -/
def etOffset : Int := -18000

/-- Days since epoch of the instant's Eastern-time date
(bar.Timestamp.In(etLocation) then taking the calendar day). -/
def etDays (t : GoTime) : Int :=
  Int.fdiv (t.unix + etOffset) 86400

/-- The Eastern-time calendar date UpdateDailySummary groups bars by. -/
def etDate (t : GoTime) : CivilDate :=
  civilFromDays (etDays t)

/-- Go's Weekday() of the instant viewed in Eastern time
(0 = Sunday … 6 = Saturday; 1970-01-01 was a Thursday = 4). -/
def etWeekday (t : GoTime) : Int :=
  Int.emod (etDays t + 4) 7

/-- The weekend test of UpdateDailySummary: Saturday (6) or Sunday (0)
in Eastern time. -/
def isWeekendET (t : GoTime) : Bool :=
  etWeekday t = 6 ∨ etWeekday t = 0

/-- Go's math.Round: round half away from zero. -/
def mathRound (x : ℚ) : Int :=
  if x < 0 then -(Int.floor (-x + 1/2)) else Int.floor (x + 1/2)

/-- roundToDecimal(value, 2) of the source: math.Round(value*100)/100. -/
def roundToDecimal2 (x : ℚ) : ℚ :=
  (mathRound (x * 100) : ℚ) / 100

/-- Go's float-to-int conversion: truncation toward zero. -/
def truncQ (x : ℚ) : Int :=
  if x < 0 then Int.ceil x else Int.floor x

-- Sanity anchors for the calendar arithmetic.
example : civilFromDays 0 = ⟨1970, 1, 1⟩ := by decide
example : civilFromDays 19731 = ⟨2024, 1, 9⟩ := by decide
example : daysFromCivil ⟨2024, 1, 9⟩ = 19731 := by decide
example : daysFromCivil ⟨2024, 1, 1⟩ = 19723 := by decide

/-- The MinuteBar struct of the source (models.go): one validated minute sample. -/
structure MinuteBar where
  symbol : String
  timestamp : GoTime
  open_ : ℚ
  high : ℚ
  low : ℚ
  close : ℚ
  volume : Int
deriving DecidableEq, Repr

/-- A row of the stock_minute_data table (UNIQUE(symbol, timestamp)). -/
structure MinuteRow where
  symbol : String
  timestamp : GoTime
  open_ : ℚ
  high : ℚ
  low : ℚ
  close : ℚ
  volume : Int
deriving DecidableEq, Repr

/-- A row of the stock_daily_summary table (UNIQUE(symbol, date)); the date
column is the serialised Format "2006-01-02" value. -/
structure SummaryRow where
  symbol : String
  date : CivilDate
  open_ : ℚ
  high : ℚ
  low : ℚ
  close : ℚ
  volume : Int
deriving DecidableEq, Repr

/-- The SQLite database state: the two tables the pipeline writes. -/
structure DB where
  minute : List MinuteRow
  summaries : List SummaryRow
deriving DecidableEq, Repr

/-- The row InsertMinuteData writes for a bar: prices rounded to 2 decimal
places (roundToDecimal(·, 2)), key fields and volume unchanged. -/
def storedRow (b : MinuteBar) : MinuteRow :=
  { symbol := b.symbol
    timestamp := b.timestamp
    open_ := roundToDecimal2 b.open_
    high := roundToDecimal2 b.high
    low := roundToDecimal2 b.low
    close := roundToDecimal2 b.close
    volume := b.volume }

/-- One INSERT OR REPLACE into stock_minute_data: a row whose
(symbol, timestamp) key already exists is replaced, otherwise the row is added. -/
def upsertRow (rows : List MinuteRow) (r : MinuteRow) : List MinuteRow :=
  if rows.any fun x => decide (x.symbol = r.symbol ∧ x.timestamp = r.timestamp) then
    rows.map fun x => if x.symbol = r.symbol ∧ x.timestamp = r.timestamp then r else x
  else
    rows ++ [r]

/-- The loop body of InsertMinuteData over a batch of bars
(one transaction; each bar rounded and upserted in order). -/
def insertAll (rows : List MinuteRow) (bars : List MinuteBar) : List MinuteRow :=
  bars.foldl (fun acc b => upsertRow acc (storedRow b)) rows

/-- Database.InsertMinuteData: upsert every bar of the batch into
stock_minute_data (summaries untouched). -/
def insertMinuteData (db : DB) (bars : List MinuteBar) : DB :=
  { db with minute := insertAll db.minute bars }

/-- Lookup of the row stored under a (symbol, timestamp) key. -/
def findRow (rows : List MinuteRow) (s : String) (t : GoTime) : Option MinuteRow :=
  rows.find? fun x => decide (x.symbol = s ∧ x.timestamp = t)

/-- The last bar of a batch carrying a given (symbol, timestamp) key. -/
def lastWrite (bars : List MinuteBar) (s : String) (t : GoTime) : Option MinuteBar :=
  (bars.filter fun b => decide (b.symbol = s ∧ b.timestamp = t)).getLast?

/-- The UNIQUE(symbol, timestamp) table invariant: no two rows share a key. -/
def NoDupKeys (rows : List MinuteRow) : Prop :=
  rows.Pairwise fun a b => ¬(a.symbol = b.symbol ∧ a.timestamp = b.timestamp)

/-- One INSERT OR REPLACE into stock_daily_summary, keyed by (symbol, date). -/
def upsertSummaryRow (rows : List SummaryRow) (r : SummaryRow) : List SummaryRow :=
  if rows.any fun x => decide (x.symbol = r.symbol ∧ x.date = r.date) then
    rows.map fun x => if x.symbol = r.symbol ∧ x.date = r.date then r else x
  else
    rows ++ [r]

/-- Timestamp-ascending comparison used to order a day's bars
(the source's double swap loop orders dayBars by Timestamp ascending). -/
def barLE (a b : MinuteBar) : Prop :=
  a.timestamp.unix ≤ b.timestamp.unix

instance : DecidableRel barLE := fun a b => by
  unfold barLE; infer_instance

instance : IsTotal MinuteBar barLE :=
  ⟨fun a b => le_total a.timestamp.unix b.timestamp.unix⟩

instance : IsTrans MinuteBar barLE :=
  ⟨fun _ _ _ hab hbc => le_trans hab hbc⟩

/-- Sorting a day's bars by timestamp ascending. The source uses an in-place
double loop that swaps bars[i], bars[j] whenever bars[i].Timestamp is after
bars[j].Timestamp; it is an ordinary comparison sort by timestamp ascending,
modelled here as insertion sort on `barLE`. -/
def sortBars (bars : List MinuteBar) : List MinuteBar :=
  List.insertionSort barLE bars

/-- The high accumulation loop of UpdateDailySummary, with its initial value:
high is overwritten whenever a larger value is seen (var high starts at 0). -/
def highAux (a : ℚ) (bars : List MinuteBar) : ℚ :=
  bars.foldl (fun high b => if b.high > high then b.high else high) a

/-- The low accumulation loop of UpdateDailySummary, with its initial value:
low is overwritten when a smaller value is seen or low is still 0
(var low starts at 0). -/
def lowAux (a : ℚ) (bars : List MinuteBar) : ℚ :=
  bars.foldl (fun low b => if b.low < low ∨ low = 0 then b.low else low) a

/-- The volume accumulation loop of UpdateDailySummary. -/
def volAux (a : Int) (bars : List MinuteBar) : Int :=
  bars.foldl (fun v b => v + b.volume) a

/-- Placeholder bar; computeSummary is only applied to the non-empty groups
UpdateDailySummary builds, so this value never reaches a stored summary. -/
def defaultBar : MinuteBar :=
  ⟨"", ⟨0, 0⟩, 0, 0, 0, 0, 0⟩

/-- The per-group summary computation of UpdateDailySummary: sort the group's
bars by timestamp, take open from the first and close from the last bar,
accumulate high/low/volume over the group, round prices to 2 decimals.  The
summary's Date field is firstBar.Timestamp, and the stored date column is its
Format "2006-01-02" — the date in the Location that timestamp carries. -/
def computeSummary (symbol : String) (dayBars : List MinuteBar) : SummaryRow :=
  let sorted := sortBars dayBars
  let firstBar := sorted.headD defaultBar
  let lastBar := sorted.getLastD defaultBar
  { symbol := symbol
    date := localDate firstBar.timestamp
    open_ := roundToDecimal2 firstBar.open_
    high := roundToDecimal2 (highAux 0 sorted)
    low := roundToDecimal2 (lowAux 0 sorted)
    close := roundToDecimal2 lastBar.close
    volume := volAux 0 sorted }

/-- Appending a bar to its date group of the dailyData map
(groups keyed by the Eastern-time date string). -/
def addToGroups (gs : List (CivilDate × List MinuteBar)) (d : CivilDate)
    (b : MinuteBar) : List (CivilDate × List MinuteBar) :=
  match gs with
  | [] => [(d, [b])]
  | (d', bs) :: rest =>
      if d' = d then (d', bs ++ [b]) :: rest else (d', bs) :: addToGroups rest d b

/-- The grouping loop of UpdateDailySummary: bars whose Eastern-time weekday is
Saturday or Sunday are skipped; the rest are grouped by their Eastern-time
calendar date.  Go map iteration order is unspecified; the groups are modelled
in first-appearance order of their date key. -/
def groupBars (bars : List MinuteBar) : List (CivilDate × List MinuteBar) :=
  bars.foldl
    (fun gs b =>
      if isWeekendET b.timestamp then gs
      else addToGroups gs (etDate b.timestamp) b)
    []

/-- Database.UpdateDailySummary: group the given bars by Eastern-time date,
compute one summary per non-empty group, and INSERT OR REPLACE each into
stock_daily_summary (no-op on an empty bar list). -/
def updateDailySummary (db : DB) (symbol : String) (bars : List MinuteBar) : DB :=
  if bars.isEmpty then db
  else
    let summaries := (groupBars bars).map fun g => computeSummary symbol g.2
    { db with summaries := summaries.foldl upsertSummaryRow db.summaries }

/-- The parallel quote arrays of one parsed Yahoo chart response
(Indicators.Quote[0] together with Result[0].Timestamp). -/
structure RawQuote where
  timestamp : List Int
  close : List ℚ
  volume : List Int
  open_ : List ℚ
  high : List ℚ
  low : List ℚ
deriving DecidableEq, Repr

/-- Outcome of one window's upstream call in GetMinuteData.
fail covers every aborting case (request error, non-200 status, unparsable
body, non-nil chart.Chart.Error); ok none covers an empty Result or empty
Quote list (processed as zero samples, loop continues); ok (some q) is a
usable payload. -/
inductive WindowResp where
  | fail
  | ok (result : Option RawQuote)
deriving DecidableEq, Repr

/-- Go's strings.ToUpper, modelled character-wise (ticker symbols are ASCII). -/
def goUpper (s : String) : String :=
  ⟨s.data.map Char.toUpper⟩

/-- The per-sample validation chain of the GetMinuteData loop, applied in the
source's order: zero OHLC, zero volume, price sanity range, OHLC ordering,
and the one-minute change-percent bound. -/
def validQuote (o h l c : ℚ) (v : Int) : Bool :=
  if c = 0 ∨ o = 0 ∨ h = 0 ∨ l = 0 then false
  else if v = 0 then false
  else if o < 1 ∨ o > 10000 ∨ h < 1 ∨ h > 10000 ∨ l < 1 ∨ l > 10000 ∨ c < 1 ∨ c > 10000 then false
  else if h < o ∨ h < c ∨ l > o ∨ l > c then false
  else if o > 0 ∧ (((c - o) / o) * 100 > 20 ∨ ((c - o) / o) * 100 < -20) then false
  else true

/-- One window's sample loop: iterate the timestamp array, skip indices out of
range of any parallel array, drop samples failing validation, and build bars
with the upper-cased symbol and time.Unix(ts, 0) — an instant carried in the
deployment's Local zone, modelled by the fixed offset localOff. -/
def processQuote (localOff : Int) (symbol : String) (q : RawQuote) : List MinuteBar :=
  (List.range q.timestamp.length).filterMap fun i =>
    if i ≥ q.close.length ∨ i ≥ q.open_.length ∨ i ≥ q.high.length
        ∨ i ≥ q.low.length ∨ i ≥ q.volume.length then none
    else
      let o := q.open_.getD i 0
      let h := q.high.getD i 0
      let l := q.low.getD i 0
      let c := q.close.getD i 0
      let v := q.volume.getD i 0
      if validQuote o h l c v then
        some { symbol := goUpper symbol
               timestamp := ⟨q.timestamp.getD i 0, localOff⟩
               open_ := o, high := h, low := l, close := c, volume := v }
      else none

/-- The validated bars one window's response contributes to allBars. -/
def windowBars (localOff : Int) (symbol : String) : WindowResp → List MinuteBar
  | .fail => []
  | .ok none => []
  | .ok (some q) => processQuote localOff symbol q

/-- The batch loop of GetMinuteData: while remainingDays > 0, fetch the next
7-day window (batch numbers starting at 1); a failing window breaks the loop
with the bars accumulated so far; a successful window appends its validated
bars.  The upstream is abstracted as an oracle from batch number to response,
and the 1-second inter-request sleep has no observable effect here. -/
def fetchLoop (oracle : Nat → WindowResp) (localOff : Int) (symbol : String) :
    Nat → Nat → List MinuteBar → List MinuteBar
  | 0, _, acc => acc
  | (r + 1), batch, acc =>
      let daysToFetch := min (r + 1) 7
      match oracle batch with
      | .fail => acc
      | .ok res =>
          fetchLoop oracle localOff symbol (r + 1 - daysToFetch) (batch + 1)
            (acc ++ windowBars localOff symbol (.ok res))
  termination_by r => r
  decreasing_by omega

/-- YahooFinanceClient.GetMinuteData: run the batch loop from batch 1 with an
empty accumulator and return the accumulated bars with a nil error. -/
def getMinuteData (oracle : Nat → WindowResp) (localOff : Int) (symbol : String)
    (days : Int) : Except String (List MinuteBar) :=
  .ok (fetchLoop oracle localOff symbol days.toNat 1 [])

/-- Number of 7-day windows the loop would need for a requested day count. -/
def numWindows (days : Int) : Nat :=
  (days.toNat + 6) / 7

/-- The bars accumulated from the first k windows of the oracle
(windows are numbered from batch 1). -/
def windowsBars (oracle : Nat → WindowResp) (localOff : Int) (symbol : String)
    (k : Nat) : List MinuteBar :=
  ((List.range k).map fun j => windowBars localOff symbol (oracle (j + 1))).flatten

/-- time.Since(t).Hours() at the given current instant: elapsed hours as an
exact rational. -/
def hoursSince (now t : GoTime) : ℚ :=
  ((now.unix - t.unix : Int) : ℚ) / 3600

/-- The inline day-planning logic shared by CollectHistoricalData and
syncStockData (the spec's planDays): with no prior data the requested day
count is kept; otherwise daysSinceLatest := int(time.Since(latest).Hours()/24) + 1
(Go's int conversion truncates toward zero), with the same-calendar-day
re-fetch rule and the non-positive safety fallback. -/
def planDays (latest : Option GoTime) (now : GoTime) (requestedDays : Int) : Int :=
  match latest with
  | none => requestedDays
  | some lt =>
      let daysSinceLatest := truncQ (hoursSince now lt / 24) + 1
      if daysSinceLatest = 1 then
        if yearOf lt = yearOf now ∧ yearDayOf lt = yearDayOf now then 1
        else daysSinceLatest
      else if daysSinceLatest ≤ 0 then 1
      else daysSinceLatest

/-- Database.GetLatestTimestamp: MAX(timestamp) over the symbol's minute rows
(SQLite's MAX over the serialised DATETIME column, i.e. the chronologically
latest stored timestamp), or none when the symbol has no rows — the case the
caller detects with IsZero(). -/
def getLatestTimestamp (db : DB) (symbol : String) : Option GoTime :=
  db.minute.foldl
    (fun acc r =>
      if r.symbol = symbol then
        match acc with
        | none => some r.timestamp
        | some t => if t.unix < r.timestamp.unix then some r.timestamp else some t
      else acc)
    none

/-- StockCollector.CollectHistoricalData: read the latest stored timestamp,
plan the day count, fetch from the upstream, and, when bars came back, insert
them and update the daily summaries.  A fetch error would be surfaced as a
collection error; zero fetched bars return success with the database as it
was.  An UpdateDailySummary failure is only logged in the source, and the
model's update cannot fail; GetDataStats only logs. -/
def collectHistoricalData (db : DB) (oracle : Nat → WindowResp) (localOff : Int)
    (now : GoTime) (symbol : String) (days : Int) : Except String DB :=
  let latest := getLatestTimestamp db symbol
  let plannedDays := planDays latest now days
  match getMinuteData oracle localOff symbol plannedDays with
  | .error e => .error ("failed to fetch data from Yahoo Finance: " ++ e)
  | .ok bars =>
      if bars.isEmpty then .ok db
      else
        let db1 := insertMinuteData db bars
        let db2 := updateDailySummary db1 symbol bars
        .ok db2

/-- A minute-table row read back as a bar (same fields; used to state what
aggregating the complete stored bar set of a date would give). -/
def rowToBar (r : MinuteRow) : MinuteBar :=
  ⟨r.symbol, r.timestamp, r.open_, r.high, r.low, r.close, r.volume⟩

/-- All stored minute bars of a symbol covering a given Eastern-time date. -/
def storedBarsOn (db : DB) (symbol : String) (d : CivilDate) : List MinuteBar :=
  (db.minute.filter fun r => decide (r.symbol = symbol ∧ etDate r.timestamp = d)).map rowToBar

/-- Modelled from the spec (claim comparison only): the day count the claim
attributes to the planner, ceil(hoursSince(latest)/24) + 1. -/
def specCeilDays (lt now : GoTime) : Int :=
  Int.ceil (hoursSince now lt / 24) + 1

/-- An oracle whose every window call fails (total upstream unavailability). -/
def failOracle : Nat → WindowResp := fun _ => .fail

/-- A window payload with one sample that passes every validation rule. -/
def sampleQuote : RawQuote :=
  { timestamp := [1704810600]
    close := [201/2]
    volume := [1000]
    open_ := [100]
    high := [101]
    low := [99] }

/-- An oracle whose first window succeeds and whose second fails. -/
def partialOracle : Nat → WindowResp :=
  fun b => if b = 1 then .ok (some sampleQuote) else .fail

/-- A populated database used to observe that a totally failed collection
leaves stored data untouched and reports success. -/
def c1db : DB :=
  ⟨[⟨"TSLA", ⟨1704810600, etOffset⟩, 100, 101, 99, 100, 500⟩],
   [⟨"TSLA", ⟨2024, 1, 9⟩, 100, 101, 99, 100, 500⟩]⟩

/-- A stored morning bar (09:30 Eastern, 2024-01-09) predating a fetch. -/
def c2row : MinuteRow := ⟨"TSLA", ⟨1704810600, etOffset⟩, 100, 101, 99, 100, 500⟩

/-- A database already holding one minute bar of the trading date. -/
def c2db : DB := ⟨[c2row], []⟩

/-- A window payload with one valid afternoon sample (15:59 Eastern) of the
same trading date. -/
def c2quote : RawQuote := ⟨[1704833940], [102], [700], [100], [102], [100]⟩

/-- An oracle delivering just that one-sample window. -/
def c2oracle : Nat → WindowResp := fun b => if b = 1 then .ok (some c2quote) else .fail

/-- The bar the fetch builds from that sample. -/
def c2bar : MinuteBar := ⟨"TSLA", ⟨1704833940, etOffset⟩, 100, 102, 100, 102, 700⟩

/-- The database state after collecting: both bars stored, but the replaced
summary aggregates only the newly fetched afternoon bar. -/
def c2after : DB :=
  ⟨[c2row, ⟨"TSLA", ⟨1704833940, etOffset⟩, 100, 102, 100, 102, 700⟩],
   [⟨"TSLA", ⟨2024, 1, 9⟩, 100, 102, 100, 102, 700⟩]⟩

/-- Two bars carrying the same (symbol, timestamp) key with different values,
for observing last-writer-wins upsert semantics. -/
def c7bar1 : MinuteBar := ⟨"AAPL", ⟨100, 0⟩, 1, 2, 1, 2, 10⟩

/-- The second write for the same key as `c7bar1`. -/
def c7bar2 : MinuteBar := ⟨"AAPL", ⟨100, 0⟩, 3, 4, 3, 4, 20⟩

/-- The first bar of the spec's end-to-end "ABC" example
(09:30 Eastern, open 100, high 101, low 99, close 100.5, volume 1000). -/
def abcBar1 : MinuteBar := ⟨"ABC", ⟨1704810600, etOffset⟩, 100, 101, 99, 201/2, 1000⟩

/-- The second bar of the "ABC" example
(15:59 Eastern, open 100.4, high 102, low 100, close 101.8, volume 2000). -/
def abcBar2 : MinuteBar := ⟨"ABC", ⟨1704833940, etOffset⟩, 502/5, 102, 100, 509/5, 2000⟩

/-- A same-trading-date group exposing the low-accumulation rule: its open has
three decimal places and a later bar carries a zero low. -/
def c6bar1 : MinuteBar := ⟨"ABC", ⟨1704812400, 0⟩, 801/8, 101, 5, 100, 10⟩

/-- The zero-low bar of the group. -/
def c6bar2 : MinuteBar := ⟨"ABC", ⟨1704816000, 0⟩, 2, 3, 0, 2, 20⟩

/-- The bar whose low the loop ends up keeping instead of the minimum. -/
def c6bar3 : MinuteBar := ⟨"ABC", ⟨1704819600, 0⟩, 4, 5, 3, 4, 30⟩

-- END OF DEFINITIONS

theorem fetchLoop_zero (oracle : Nat → WindowResp) (off : Int) (sym : String)
    (batch : Nat) (acc : List MinuteBar) :
    fetchLoop oracle off sym 0 batch acc = acc := by
  rw [fetchLoop]

theorem fetchLoop_succ_fail (oracle : Nat → WindowResp) (off : Int) (sym : String)
    (r batch : Nat) (acc : List MinuteBar) (h : oracle batch = .fail) :
    fetchLoop oracle off sym (r + 1) batch acc = acc := by
  rw [fetchLoop, h]

theorem fetchLoop_succ_ok (oracle : Nat → WindowResp) (off : Int) (sym : String)
    (r batch : Nat) (acc : List MinuteBar) (res : Option RawQuote)
    (h : oracle batch = .ok res) :
    fetchLoop oracle off sym (r + 1) batch acc =
      fetchLoop oracle off sym (r + 1 - min (r + 1) 7) (batch + 1)
        (acc ++ windowBars off sym (.ok res)) := by
  rw [fetchLoop, h]

theorem fetchLoop_append (oracle : Nat → WindowResp) (off : Int) (sym : String) :
    ∀ r batch acc, fetchLoop oracle off sym r batch acc =
      acc ++ fetchLoop oracle off sym r batch [] := by
  intro r
  induction r using Nat.strong_induction_on with
  | _ r ih =>
    match r with
    | 0 => intro batch acc; simp [fetchLoop_zero]
    | r + 1 =>
      intro batch acc
      cases h : oracle batch with
      | fail => rw [fetchLoop_succ_fail _ _ _ _ _ _ h, fetchLoop_succ_fail _ _ _ _ _ _ h]; simp
      | ok res =>
        rw [fetchLoop_succ_ok _ _ _ _ _ _ _ h, fetchLoop_succ_ok _ _ _ _ _ _ _ h]
        rw [ih (r + 1 - min (r + 1) 7) (by omega), ih (r + 1 - min (r + 1) 7) (by omega) _ ([] ++ _)]
        simp

theorem fetchLoop_windows (oracle : Nat → WindowResp) (off : Int) (sym : String) :
    ∀ k r batch,
      (∀ j, j < k → oracle (batch + j) ≠ .fail) →
      oracle (batch + k) = .fail →
      7 * k < r →
      fetchLoop oracle off sym r batch [] =
        ((List.range k).map fun j => windowBars off sym (oracle (batch + j))).flatten := by
  intro k
  induction k with
  | zero =>
    intro r batch _ hfail hr
    obtain ⟨r', rfl⟩ : ∃ r', r = r' + 1 := ⟨r - 1, by omega⟩
    rw [fetchLoop_succ_fail _ _ _ _ _ _ (by simpa using hfail)]
    simp
  | succ k ih =>
    intro r batch hsucc hfail hr
    obtain ⟨r', rfl⟩ : ∃ r', r = r' + 1 := ⟨r - 1, by omega⟩
    cases h : oracle batch with
    | fail => exact absurd h (by simpa using hsucc 0 (by omega))
    | ok res =>
      rw [fetchLoop_succ_ok _ _ _ _ _ _ _ h]
      have hmin : min (r' + 1) 7 = 7 := by omega
      rw [hmin, fetchLoop_append]
      have hsucc' : ∀ j, j < k → oracle (batch + 1 + j) ≠ .fail := by
        intro j hj
        have := hsucc (j + 1) (by omega)
        rwa [show batch + (j + 1) = batch + 1 + j by omega] at this
      have hfail' : oracle (batch + 1 + k) = .fail := by
        rwa [show batch + (k + 1) = batch + 1 + k by omega] at hfail
      rw [ih (r' + 1 - 7) (batch + 1) hsucc' hfail' (by omega)]
      rw [List.range_succ_eq_map, List.map_cons, List.flatten_cons, List.map_map]
      simp only [List.nil_append]
      have h0 : windowBars off sym (WindowResp.ok res) = windowBars off sym (oracle (batch + 0)) := by
        rw [Nat.add_zero, h]
      rw [h0]
      congr 2
      apply List.map_congr_left
      intro j hj
      simp only [Function.comp_apply]
      congr 2
      omega

/-- C5 (confirmed): if the windows before window k+1 all succeed and window
k+1 of the planned span fails, GetMinuteData stops there and returns exactly
the validated bars accumulated from the k completed windows, as a success
(nil error) rather than an error for the whole call. -/
theorem getMinuteData_partial_windows (oracle : Nat → WindowResp) (off : Int)
    (sym : String) (days : Int) (k : Nat)
    (hsucc : ∀ j, j < k → oracle (j + 1) ≠ .fail)
    (hfail : oracle (k + 1) = .fail)
    (hwin : k < numWindows days) :
    getMinuteData oracle off sym days = .ok (windowsBars oracle off sym k) := by
  unfold getMinuteData windowsBars
  congr 1
  have h7 : 7 * k < days.toNat := by
    unfold numWindows at hwin
    omega
  have hs : ∀ j, j < k → oracle (1 + j) ≠ .fail := by
    intro j hj
    have := hsucc j hj
    rwa [show j + 1 = 1 + j by omega] at this
  have hf : oracle (1 + k) = .fail := by
    rwa [show k + 1 = 1 + k by omega] at hfail
  rw [fetchLoop_windows oracle off sym k days.toNat 1 hs hf h7]
  congr 1
  apply List.map_congr_left
  intro j hj
  congr 2
  omega

/-- Witness for C5: a concrete three-window span (15 days) whose second window
fails returns exactly the one validated bar of the first window. -/
theorem getMinuteData_partial_windows_witness :
    getMinuteData partialOracle 0 "abc" 15 = .ok (windowsBars partialOracle 0 "abc" 1) ∧
    windowsBars partialOracle 0 "abc" 1 =
      [⟨"ABC", ⟨1704810600, 0⟩, 100, 101, 99, 201/2, 1000⟩] := by
  constructor
  · exact getMinuteData_partial_windows partialOracle 0 "abc" 15 1
      (by decide) (by decide) (by decide)
  · have habc : goUpper "abc" = "ABC" := by decide
    norm_num [windowsBars, windowBars, partialOracle, sampleQuote, processQuote,
      validQuote, habc, List.range_succ, List.filterMap_cons]

/-- C10 (confirmed): GetMinuteData always returns a nil error — every failure
mode only breaks the window loop — and when even the first window fails the
caller receives an empty successful result, indistinguishable from an
empty-but-successful fetch. -/
theorem getMinuteData_never_errors :
    (∀ (oracle : Nat → WindowResp) (off : Int) (sym : String) (days : Int),
      ∃ bars, getMinuteData oracle off sym days = .ok bars) ∧
    (∀ (oracle : Nat → WindowResp) (off : Int) (sym : String) (days : Int),
      oracle 1 = .fail → getMinuteData oracle off sym days = .ok []) := by
  constructor
  · intro oracle off sym days
    exact ⟨_, rfl⟩
  · intro oracle off sym days h
    unfold getMinuteData
    congr 1
    match days.toNat with
    | 0 => rw [fetchLoop_zero]
    | r + 1 => rw [fetchLoop_succ_fail _ _ _ _ _ _ h]

/-- Witness for C10: with a totally failing upstream, a 30-day fetch returns
an empty success. -/
theorem getMinuteData_never_errors_witness :
    getMinuteData failOracle 0 "TSLA" 30 = .ok [] :=
  getMinuteData_never_errors.2 failOracle 0 "TSLA" 30 rfl

/-- Counterexample to C3: the planner truncates hoursSince/24 (Go int
conversion) rather than taking its ceiling.  With the prior latest timestamp
25 hours before now, the code plans 2 days while the claimed
ceil(hoursSince/24) + 1 formula gives 3. -/
theorem planDays_ceil_counterexample :
    planDays (some ⟨1704758400, 0⟩) ⟨1704848400, 0⟩ 30 = 2 ∧
    specCeilDays ⟨1704758400, 0⟩ ⟨1704848400, 0⟩ = 3 ∧ (2 : Int) ≠ 3 := by
  refine ⟨?_, ?_, by norm_num⟩
  · norm_num [planDays, truncQ, hoursSince]
  · norm_num [specCeilDays, hoursSince]
    have h : ⌈(25 : ℚ) / 24⌉ = 2 := by
      rw [Int.ceil_eq_iff]
      norm_num
    omega

/-- C3 as amended: for every existing prior latest timestamp the planner
returns trunc(hoursSince/24) + 1 — truncation toward zero, as Go's int
conversion of a float — clamped below to a minimum of 1; in particular a
prior latest timestamp exactly 5 days (120 hours) in the past yields 6. -/
theorem planDays_trunc_formula :
    (∀ (lt now : GoTime) (req : Int),
      planDays (some lt) now req = max 1 (truncQ (hoursSince now lt / 24) + 1)) ∧
    planDays (some ⟨1704758400, etOffset⟩) ⟨1705190400, etOffset⟩ 30 = 6 := by
  constructor
  · intro lt now req
    unfold planDays
    by_cases h1 : truncQ (hoursSince now lt / 24) + 1 = 1
    · rw [h1]
      simp only [if_true, if_pos rfl]
      split <;> omega
    · simp only [if_neg h1]
      split <;> omega
  · norm_num [planDays, truncQ, hoursSince]

/-- C9 (confirmed): when the computed daysSinceLatest is 1 and the prior
latest timestamp falls on the same calendar day as now (same Year and
YearDay), the planner returns exactly 1; in particular prior latest at
14:00 Eastern and now at 16:05 Eastern of the same day gives 1. -/
theorem planDays_same_day_refetch :
    (∀ (lt now : GoTime) (req : Int),
      truncQ (hoursSince now lt / 24) + 1 = 1 →
      yearOf lt = yearOf now →
      yearDayOf lt = yearDayOf now →
      planDays (some lt) now req = 1) ∧
    planDays (some ⟨1704826800, etOffset⟩) ⟨1704834300, etOffset⟩ 30 = 1 := by
  constructor
  · intro lt now req h1 h2 h3
    simp [planDays, h1, h2, h3]
  · norm_num [planDays, truncQ, hoursSince]

/-- Witness for C9: the same-day rule applied at concrete times
(14:00 and 16:05 Eastern of 2024-01-09), with another requested day count. -/
theorem planDays_same_day_refetch_witness :
    planDays (some ⟨1704826800, etOffset⟩) ⟨1704834300, etOffset⟩ 55 = 1 := by
  apply planDays_same_day_refetch.1
  · norm_num [truncQ, hoursSince]
  · decide
  · decide

/-- Counterexample to C8: the loop only rejects volume equal to zero, so a
sample with negative volume (and otherwise valid prices) is accepted, while
the claim requires volume greater than zero for acceptance. -/
theorem validQuote_negative_volume_accepted :
    validQuote 100 101 99 100 (-1) = true ∧ ¬((-1 : Int) > 0) := by
  constructor
  · norm_num [validQuote]
  · norm_num

/-- C8 as amended: a raw sample is accepted exactly when no OHLC field is
zero, the volume is nonzero (negative volumes are not rejected), every price
lies in [1, 10000], the OHLC ordering holds, and the one-minute relative move
satisfies the |close - open| / open bound of 1/5; in particular volume = 0 or
high < open is always rejected, and the verdict is deterministic. -/
theorem validQuote_rules :
    (∀ (o h l c : ℚ) (v : Int), validQuote o h l c v = true ↔
      ((o ≠ 0 ∧ h ≠ 0 ∧ l ≠ 0 ∧ c ≠ 0) ∧ v ≠ 0 ∧
       (1 ≤ o ∧ o ≤ 10000 ∧ 1 ≤ h ∧ h ≤ 10000 ∧ 1 ≤ l ∧ l ≤ 10000 ∧ 1 ≤ c ∧ c ≤ 10000) ∧
       (o ≤ h ∧ c ≤ h ∧ l ≤ o ∧ l ≤ c) ∧ |c - o| / o ≤ 1/5)) ∧
    (∀ (o h l c : ℚ) (v : Int), v = 0 → validQuote o h l c v = false) ∧
    (∀ (o h l c : ℚ) (v : Int), h < o → validQuote o h l c v = false) ∧
    (∀ (o h l c : ℚ) (v : Int), validQuote o h l c v = validQuote o h l c v) := by
  refine ⟨?_, ?_, ?_, fun _ _ _ _ _ => rfl⟩
  · intro o h l c v
    unfold validQuote
    split_ifs with h1 h2 h3 h4 h5
    · simp only [Bool.false_eq_true, false_iff]
      rintro ⟨⟨ho, hh, hl, hc⟩, -⟩
      rcases h1 with h1 | h1 | h1 | h1 <;> tauto
    · simp only [Bool.false_eq_true, false_iff]
      rintro ⟨-, hv, -⟩
      exact hv h2
    · simp only [Bool.false_eq_true, false_iff]
      rintro ⟨-, -, ⟨b1, b2, b3, b4, b5, b6, b7, b8⟩, -⟩
      rcases h3 with h3 | h3 | h3 | h3 | h3 | h3 | h3 | h3 <;> linarith
    · simp only [Bool.false_eq_true, false_iff]
      rintro ⟨-, -, -, ⟨d1, d2, d3, d4⟩, -⟩
      rcases h4 with h4 | h4 | h4 | h4 <;> linarith
    · simp only [Bool.false_eq_true, false_iff]
      rintro ⟨-, -, ⟨b1, b2, -⟩, -, habs⟩
      have ho : (0:ℚ) < o := by linarith
      rw [div_le_iff₀ ho, abs_le] at habs
      obtain ⟨-, hpct⟩ := h5
      rcases hpct with hpct | hpct
      · have h7 : 1/5 * o < c - o := (lt_div_iff₀ ho).mp (by linarith)
        linarith [habs.2]
      · have h7 : c - o < -(1/5) * o := (div_lt_iff₀ ho).mp (by linarith)
        linarith [habs.1]
    · simp only [true_iff]
      push_neg at h1 h2 h3 h4 h5
      obtain ⟨hc, ho, hh, hl⟩ := h1
      obtain ⟨b1, b2, b3, b4, b5, b6, b7, b8⟩ := h3
      obtain ⟨d1, d2, d3, d4⟩ := h4
      have hopos : (0:ℚ) < o := by linarith
      have hpct := h5 hopos
      refine ⟨⟨ho, hh, hl, hc⟩, h2, ⟨b1, b2, b3, b4, b5, b6, b7, b8⟩, ⟨d1, d2, d3, d4⟩, ?_⟩
      rw [div_le_iff₀ hopos, abs_le]
      constructor
      · have h7 : -(1/5) * o ≤ c - o := by
          have := (le_div_iff₀ hopos).mp (show -(1/5) ≤ (c - o) / o by linarith [hpct.2])
          linarith
        linarith
      · have h7 : c - o ≤ 1/5 * o := by
          have := (div_le_iff₀ hopos).mp (show (c - o) / o ≤ 1/5 by linarith [hpct.1])
          linarith
        linarith
  · intro o h l c v hv
    unfold validQuote
    split_ifs <;> tauto
  · intro o h l c v hho
    unfold validQuote
    split_ifs with h1 h2 h3 h4 h5 <;>
      first | rfl | (push_neg at h4; exact absurd hho (not_lt.mpr h4.1))

/-- Witness for C8's amended characterization: a concrete accepted sample, a
zero-volume rejection and a high-below-open rejection. -/
theorem validQuote_rules_witness :
    validQuote 100 101 99 (201/2) 1000 = true ∧
    validQuote 100 101 99 (201/2) 0 = false ∧
    validQuote 100 99 98 99 1000 = false := by
  refine ⟨(validQuote_rules.1 100 101 99 (201/2) 1000).mpr (by norm_num [abs_of_nonneg]), ?_, ?_⟩
  · exact validQuote_rules.2.1 100 101 99 (201/2) 0 rfl
  · exact validQuote_rules.2.2.1 100 99 98 99 1000 (by norm_num)

/-- C4 (code bug), evaluated at the failing input: a bar at unix instant
1704848400 (2024-01-10 01:00 UTC) carried in a UTC Location is grouped under
its Eastern-time trading date 2024-01-09 (a Tuesday), but the stored summary
date is 2024-01-10 — firstBar.Timestamp formatted in the Location the
timestamp carries, not the Eastern grouping date the claim (and the grouping
comment in the source) prescribes. -/
theorem summary_date_not_exchange_date :
    (updateDailySummary ⟨[], []⟩ "TSLA"
        [⟨"TSLA", ⟨1704848400, 0⟩, 100, 101, 99, 100, 500⟩]).summaries =
      [⟨"TSLA", ⟨2024, 1, 10⟩, 100, 101, 99, 100, 500⟩] ∧
    etDate ⟨1704848400, 0⟩ = ⟨2024, 1, 9⟩ ∧
    etWeekday ⟨1704848400, 0⟩ = 2 ∧
    (⟨2024, 1, 10⟩ : CivilDate) ≠ ⟨2024, 1, 9⟩ := by
  refine ⟨?_, by decide, by decide, by decide⟩
  have hw : isWeekendET ⟨1704848400, 0⟩ = false := by decide
  have hl : localDate (⟨1704848400, 0⟩ : GoTime) = ⟨2024, 1, 10⟩ := by decide
  norm_num [updateDailySummary, groupBars, addToGroups, computeSummary, sortBars,
    List.insertionSort, List.orderedInsert, highAux, lowAux, volAux,
    roundToDecimal2, mathRound, upsertSummaryRow, hw, hl]

/-- Counterexample to C1: with every fetch window failing (zero bars
obtained), CollectHistoricalData returns nil — a success leaving the
database exactly as it was — and not an error, while the claim requires a
clear failure to be reported to the caller. -/
theorem collect_total_failure_not_an_error :
    collectHistoricalData c1db failOracle etOffset ⟨1704834300, etOffset⟩ "TSLA" 30 =
      .ok c1db ∧
    ∀ e, collectHistoricalData c1db failOracle etOffset ⟨1704834300, etOffset⟩ "TSLA" 30 ≠
      .error e := by
  have hb : ∀ n : Nat, fetchLoop failOracle etOffset "TSLA" n 1 [] = [] := by
    intro n
    match n with
    | 0 => exact fetchLoop_zero _ _ _ _ _
    | r + 1 => exact fetchLoop_succ_fail _ _ _ _ _ _ rfl
  have h1 : collectHistoricalData c1db failOracle etOffset ⟨1704834300, etOffset⟩ "TSLA" 30 =
      .ok c1db := by
    simp only [collectHistoricalData, getMinuteData, hb]
    simp
  exact ⟨h1, fun e => by rw [h1]; simp⟩

/-- C1 as amended: when the fetch obtains zero bars — in particular when the
very first window's call fails, which aborts the whole fetch — the collect
call reports success (not a failure), and every previously stored minute bar
and daily summary is left unchanged. -/
theorem collect_zero_bars_keeps_db :
    ∀ (db : DB) (oracle : Nat → WindowResp) (off : Int) (now : GoTime)
      (sym : String) (days : Int),
      oracle 1 = .fail →
      collectHistoricalData db oracle off now sym days = .ok db := by
  intro db oracle off now sym days h
  have hb : ∀ n : Nat, fetchLoop oracle off sym n 1 [] = [] := by
    intro n
    match n with
    | 0 => exact fetchLoop_zero _ _ _ _ _
    | r + 1 => exact fetchLoop_succ_fail _ _ _ _ _ _ h
  simp only [collectHistoricalData, getMinuteData, hb]
  simp

/-- Witness for amended C1 at a concrete database and failing upstream. -/
theorem collect_zero_bars_keeps_db_witness :
    collectHistoricalData ⟨[], []⟩ failOracle 0 ⟨1704834300, 0⟩ "AAPL" 30 = .ok ⟨[], []⟩ :=
  collect_zero_bars_keeps_db ⟨[], []⟩ failOracle 0 ⟨1704834300, 0⟩ "AAPL" 30 rfl

/-- Counterexample to C2: the database already stores a morning bar of
2024-01-09 (volume 500); collecting fetches only an afternoon bar of the same
date (volume 700).  CollectHistoricalData passes only the newly fetched bars
to UpdateDailySummary, so the replaced summary has volume 700, while the
aggregate of the complete stored bar set of that date has volume 1200. -/
theorem collect_summary_ignores_stored_bars :
    collectHistoricalData c2db c2oracle etOffset ⟨1704837540, etOffset⟩ "TSLA" 30 =
      .ok c2after ∧
    c2after.summaries = [⟨"TSLA", ⟨2024, 1, 9⟩, 100, 102, 100, 102, 700⟩] ∧
    (computeSummary "TSLA" (storedBarsOn c2after "TSLA" ⟨2024, 1, 9⟩)).volume = 1200 ∧
    ((700 : Int) ≠ 1200) := by
  refine ⟨?_, rfl, ?_, by norm_num⟩
  · have hup : goUpper "TSLA" = "TSLA" := by decide
    have hw : isWeekendET ⟨1704833940, etOffset⟩ = false := by decide
    have he : etDate (⟨1704833940, etOffset⟩ : GoTime) = ⟨2024, 1, 9⟩ := by decide
    have hl : localDate (⟨1704833940, etOffset⟩ : GoTime) = ⟨2024, 1, 9⟩ := by decide
    have hy : yearOf (⟨1704810600, etOffset⟩ : GoTime) = yearOf (⟨1704837540, etOffset⟩ : GoTime) := by decide
    have hyd : yearDayOf (⟨1704810600, etOffset⟩ : GoTime) = yearDayOf (⟨1704837540, etOffset⟩ : GoTime) := by decide
    norm_num [collectHistoricalData, getLatestTimestamp, c2db, c2row, planDays,
      truncQ, hoursSince, hy, hyd, getMinuteData, fetchLoop, c2oracle, windowBars,
      c2quote, processQuote, validQuote, hup, List.range_succ, List.filterMap_cons,
      insertMinuteData, insertAll, upsertRow, storedRow, roundToDecimal2, mathRound,
      updateDailySummary, groupBars, addToGroups, hw, he, hl, computeSummary,
      sortBars, List.insertionSort, List.orderedInsert, highAux, lowAux, volAux,
      upsertSummaryRow, c2after]
  · have he1 : etDate (⟨1704810600, etOffset⟩ : GoTime) = ⟨2024, 1, 9⟩ := by decide
    have he2 : etDate (⟨1704833940, etOffset⟩ : GoTime) = ⟨2024, 1, 9⟩ := by decide
    norm_num [computeSummary, storedBarsOn, c2after, c2row, rowToBar, he1, he2,
      sortBars, List.insertionSort, List.orderedInsert, barLE, volAux]

/-- C2 as amended: after persisting the newly fetched minute bars, the collect
operation recomputes the daily summaries from those newly fetched bars only —
for every date touched by the fetch the replaced summary is the aggregate of
the fetched bars grouped on that date, with the stored bars of the date playing
no part. -/
theorem collect_summary_from_fetched_only :
    ∀ (db : DB) (oracle : Nat → WindowResp) (off : Int) (now : GoTime)
      (sym : String) (days : Int) (bars : List MinuteBar),
      getMinuteData oracle off sym (planDays (getLatestTimestamp db sym) now days) = .ok bars →
      bars ≠ [] →
      collectHistoricalData db oracle off now sym days =
        .ok ⟨insertAll db.minute bars,
             ((groupBars bars).map fun g => computeSummary sym g.2).foldl
               upsertSummaryRow db.summaries⟩ := by
  intro db oracle off now sym days bars hfetch hne
  have hbars : fetchLoop oracle off sym
      (planDays (getLatestTimestamp db sym) now days).toNat 1 [] = bars := by
    simpa [getMinuteData] using hfetch
  simp only [collectHistoricalData, getMinuteData, hbars]
  rw [if_neg (by simpa [List.isEmpty_iff] using hne)]
  simp only [insertMinuteData, updateDailySummary, List.isEmpty_iff]
  rw [if_neg hne]

/-- Witness for amended C2: the concrete one-bar fetch above replaces the
summary with the aggregate of the fetched group only. -/
theorem collect_summary_from_fetched_only_witness :
    collectHistoricalData c2db c2oracle etOffset ⟨1704837540, etOffset⟩ "TSLA" 30 =
      .ok ⟨insertAll c2db.minute [c2bar],
           ((groupBars [c2bar]).map fun g => computeSummary "TSLA" g.2).foldl
             upsertSummaryRow c2db.summaries⟩ := by
  apply collect_summary_from_fetched_only
  · have hup : goUpper "TSLA" = "TSLA" := by decide
    have hy : yearOf (⟨1704810600, etOffset⟩ : GoTime) = yearOf (⟨1704837540, etOffset⟩ : GoTime) := by decide
    have hyd : yearDayOf (⟨1704810600, etOffset⟩ : GoTime) = yearDayOf (⟨1704837540, etOffset⟩ : GoTime) := by decide
    norm_num [getMinuteData, getLatestTimestamp, c2db, c2row, planDays, truncQ,
      hoursSince, hy, hyd, fetchLoop, c2oracle, windowBars, c2quote, processQuote,
      validQuote, hup, List.range_succ, List.filterMap_cons, c2bar]
  · simp

theorem findRow_upsertRow (rows : List MinuteRow) (r : MinuteRow) (s : String) (t : GoTime) :
    findRow (upsertRow rows r) s t =
      if r.symbol = s ∧ r.timestamp = t then some r else findRow rows s t := by
  by_cases hk : r.symbol = s ∧ r.timestamp = t
  · rw [if_pos hk]
    unfold upsertRow
    split
    next hany =>
      simp only [List.any_eq_true, decide_eq_true_eq] at hany
      obtain ⟨x0, hx0mem, hx0⟩ := hany
      induction rows with
      | nil => simp at hx0mem
      | cons x xs ih =>
        simp only [List.map_cons]
        unfold findRow
        by_cases hx : x.symbol = r.symbol ∧ x.timestamp = r.timestamp
        · rw [if_pos hx]
          rw [List.find?_cons_of_pos]
          simp [hk.1, hk.2]
        · rw [if_neg hx]
          rw [List.find?_cons_of_neg]
          · rcases List.mem_cons.mp hx0mem with rfl | hmem
            · exact absurd hx0 hx
            · exact ih hmem
          · simp only [decide_eq_true_eq]
            rintro ⟨ha, hb⟩
            exact hx ⟨ha.trans hk.1.symm ▸ rfl, hb.trans hk.2.symm ▸ rfl⟩
    next hany =>
      simp only [List.any_eq_true, decide_eq_true_eq, not_exists] at hany
      unfold findRow
      rw [List.find?_append]
      have h1 : rows.find? (fun x => decide (x.symbol = s ∧ x.timestamp = t)) = none := by
        rw [List.find?_eq_none]
        intro x hx
        simp only [decide_eq_true_eq]
        rintro ⟨ha, hb⟩
        exact (hany x) ⟨hx, ha.trans hk.1.symm, hb.trans hk.2.symm⟩
      rw [h1]
      simp [hk.1, hk.2]
  · rw [if_neg hk]
    unfold upsertRow
    split
    next hany =>
      clear hany
      unfold findRow
      induction rows with
      | nil => simp
      | cons x xs ih =>
        simp only [List.map_cons]
        by_cases hx : x.symbol = r.symbol ∧ x.timestamp = r.timestamp
        · rw [if_pos hx]
          have hpx : ¬(x.symbol = s ∧ x.timestamp = t) := by
            rintro ⟨ha, hb⟩
            exact hk ⟨hx.1.symm.trans ha, hx.2.symm.trans hb⟩
          rw [List.find?_cons_of_neg, List.find?_cons_of_neg]
          · exact ih
          · simpa using hpx
          · simpa using hk
        · rw [if_neg hx]
          by_cases hpx : x.symbol = s ∧ x.timestamp = t
          · rw [List.find?_cons_of_pos, List.find?_cons_of_pos] <;> simpa using hpx
          · rw [List.find?_cons_of_neg, List.find?_cons_of_neg]
            · exact ih
            · simpa using hpx
            · simpa using hpx
    next hany =>
      unfold findRow
      rw [List.find?_append]
      have h2 : List.find? (fun x => decide (x.symbol = s ∧ x.timestamp = t)) [r] = none := by
        simp only [List.find?_cons, List.find?_nil]
        split
        next hp => simp only [decide_eq_true_eq] at hp; exact absurd hp hk
        next => rfl
      rw [h2]
      cases rows.find? (fun x => decide (x.symbol = s ∧ x.timestamp = t)) <;> rfl

theorem noDupKeys_upsertRow (rows : List MinuteRow) (r : MinuteRow)
    (h : NoDupKeys rows) : NoDupKeys (upsertRow rows r) := by
  unfold upsertRow NoDupKeys
  split
  next hany =>
    rw [List.pairwise_map]
    refine h.imp_of_mem ?_
    intro a b hma hmb hab
    by_cases ha : a.symbol = r.symbol ∧ a.timestamp = r.timestamp <;>
      by_cases hb : b.symbol = r.symbol ∧ b.timestamp = r.timestamp
    · rw [if_pos ha, if_pos hb]
      rintro ⟨-, -⟩
      exact hab ⟨ha.1.trans hb.1.symm, ha.2.trans hb.2.symm⟩
    · rw [if_pos ha, if_neg hb]
      rintro ⟨h1, h2⟩
      exact hab ⟨ha.1.trans h1, ha.2.trans h2⟩
    · rw [if_neg ha, if_pos hb]
      rintro ⟨h1, h2⟩
      exact hab ⟨h1.trans hb.1.symm, h2.trans hb.2.symm⟩
    · rw [if_neg ha, if_neg hb]
      exact hab
  next hany =>
    rw [List.pairwise_append]
    refine ⟨h, by simp, ?_⟩
    intro a hma b hmb
    simp only [List.mem_singleton] at hmb
    subst hmb
    simp only [List.any_eq_true, decide_eq_true_eq, not_exists] at hany
    intro hab
    exact (hany a) ⟨hma, hab.1, hab.2⟩

theorem countP_key_eq_one (rows : List MinuteRow) (h : NoDupKeys rows)
    (s : String) (t : GoTime)
    (hmem : ∃ x ∈ rows, x.symbol = s ∧ x.timestamp = t) :
    rows.countP (fun x => decide (x.symbol = s ∧ x.timestamp = t)) = 1 := by
  induction rows with
  | nil => simp at hmem
  | cons x xs ih =>
    rw [List.countP_cons]
    rw [NoDupKeys, List.pairwise_cons] at h
    by_cases hx : x.symbol = s ∧ x.timestamp = t
    · have hzero : xs.countP (fun x => decide (x.symbol = s ∧ x.timestamp = t)) = 0 := by
        rw [List.countP_eq_zero]
        intro y hy
        simp only [decide_eq_true_eq]
        rintro ⟨h1, h2⟩
        exact (h.1 y hy) ⟨hx.1.trans h1.symm, hx.2.trans h2.symm⟩
      rw [hzero]
      simp [hx]
    · obtain ⟨y, hmy, hy⟩ := hmem
      rcases List.mem_cons.mp hmy with rfl | hmy'
      · exact absurd hy hx
      · rw [ih h.2 ⟨y, hmy', hy⟩]
        simp [hx]

theorem insertAll_spec :
    ∀ (bars : List MinuteBar) (rows : List MinuteRow), NoDupKeys rows →
      NoDupKeys (insertAll rows bars) ∧
      (∀ s t b, lastWrite bars s t = some b →
        findRow (insertAll rows bars) s t = some (storedRow b)) ∧
      (∀ s t, lastWrite bars s t = none →
        findRow (insertAll rows bars) s t = findRow rows s t) := by
  intro bars
  induction bars with
  | nil =>
    intro rows h
    refine ⟨h, ?_, ?_⟩
    · intro s t b hlw
      simp [lastWrite] at hlw
    · intro s t _
      rfl
  | cons b bs ih =>
    intro rows h
    have h' : NoDupKeys (upsertRow rows (storedRow b)) := noDupKeys_upsertRow rows _ h
    obtain ⟨ihd, ihsome, ihnone⟩ := ih (upsertRow rows (storedRow b)) h'
    have hstep : insertAll rows (b :: bs) = insertAll (upsertRow rows (storedRow b)) bs := rfl
    refine ⟨hstep ▸ ihd, ?_, ?_⟩
    · intro s t b' hlw
      rw [hstep]
      unfold lastWrite at hlw
      rw [List.filter_cons] at hlw
      by_cases hpred : b.symbol = s ∧ b.timestamp = t
      · rw [if_pos (by simpa using hpred)] at hlw
        rw [List.getLast?_cons] at hlw
        cases hbs : (bs.filter fun x => decide (x.symbol = s ∧ x.timestamp = t)).getLast? with
        | some x =>
          rw [hbs] at hlw
          simp only [Option.getD_some, Option.some.injEq] at hlw
          subst hlw
          exact ihsome s t x hbs
        | none =>
          rw [hbs] at hlw
          simp only [Option.getD_none, Option.some.injEq] at hlw
          subst hlw
          rw [ihnone s t hbs, findRow_upsertRow]
          rw [if_pos ?_]
          exact ⟨hpred.1, hpred.2⟩
      · rw [if_neg (by simpa using hpred)] at hlw
        exact hstep ▸ ihsome s t b' hlw
    · intro s t hlw
      rw [hstep]
      unfold lastWrite at hlw
      rw [List.filter_cons] at hlw
      by_cases hpred : b.symbol = s ∧ b.timestamp = t
      · rw [if_pos (by simpa using hpred)] at hlw
        rw [List.getLast?_cons] at hlw
        simp at hlw
      · rw [if_neg (by simpa using hpred)] at hlw
        rw [ihnone s t hlw, findRow_upsertRow, if_neg]
        simpa [storedRow] using hpred

/-- C7 (confirmed): starting from any minute table satisfying the UNIQUE
(symbol, timestamp) invariant, a batch of upserts keeps the invariant — there
is exactly one stored row per present key — and the row under any key written
by the batch carries the values of the last write for that key (the prices
the write stores, i.e. rounded to 2 decimals), while unwritten keys keep
their previous row. -/
theorem insertMinuteData_upsert_semantics (db : DB) (bars : List MinuteBar)
    (h : NoDupKeys db.minute) :
    NoDupKeys (insertMinuteData db bars).minute ∧
    (∀ s t, (∃ x ∈ (insertMinuteData db bars).minute, x.symbol = s ∧ x.timestamp = t) →
      (insertMinuteData db bars).minute.countP
        (fun x => decide (x.symbol = s ∧ x.timestamp = t)) = 1) ∧
    (∀ s t b, lastWrite bars s t = some b →
      findRow (insertMinuteData db bars).minute s t = some (storedRow b)) ∧
    (∀ s t, lastWrite bars s t = none →
      findRow (insertMinuteData db bars).minute s t = findRow db.minute s t) := by
  obtain ⟨h1, h2, h3⟩ := insertAll_spec bars db.minute h
  exact ⟨h1, fun s t hmem => countP_key_eq_one _ h1 s t hmem, h2, h3⟩

/-- Witness for C7: writing the same key twice into an empty table leaves a
table with unique keys whose row for that key is the second write's values. -/
theorem insertMinuteData_upsert_semantics_witness :
    NoDupKeys (insertMinuteData ⟨[], []⟩ [c7bar1, c7bar2]).minute ∧
    (∀ s t, (∃ x ∈ (insertMinuteData ⟨[], []⟩ [c7bar1, c7bar2]).minute,
        x.symbol = s ∧ x.timestamp = t) →
      (insertMinuteData ⟨[], []⟩ [c7bar1, c7bar2]).minute.countP
        (fun x => decide (x.symbol = s ∧ x.timestamp = t)) = 1) ∧
    (∀ s t b, lastWrite [c7bar1, c7bar2] s t = some b →
      findRow (insertMinuteData ⟨[], []⟩ [c7bar1, c7bar2]).minute s t = some (storedRow b)) ∧
    (∀ s t, lastWrite [c7bar1, c7bar2] s t = none →
      findRow (insertMinuteData ⟨[], []⟩ [c7bar1, c7bar2]).minute s t = findRow [] s t) :=
  insertMinuteData_upsert_semantics ⟨[], []⟩ [c7bar1, c7bar2] (by simp [NoDupKeys])

theorem getLastD_mem_cons' : ∀ (l : List MinuteBar) (a : MinuteBar), l.getLastD a ∈ a :: l := by
  intro l
  induction l with
  | nil => intro a; simp [List.getLastD]
  | cons x xs ih =>
    intro a
    rw [List.getLastD_cons]
    rcases List.mem_cons.mp (ih x) with h | h
    · rw [h]
      exact List.mem_cons.mpr (Or.inr (List.mem_cons_self x xs))
    · exact List.mem_cons.mpr (Or.inr (List.mem_cons.mpr (Or.inr h)))

theorem sorted_mem_le_getLastD :
    ∀ (l : List MinuteBar), List.Sorted barLE l →
      ∀ b ∈ l, ∀ d, barLE b (l.getLastD d) := by
  intro l
  induction l with
  | nil => intro _ b hb; simp at hb
  | cons x xs ih =>
    intro hs b hb d
    rw [List.getLastD_cons]
    rcases List.mem_cons.mp hb with rfl | hmem
    · rcases List.mem_cons.mp (getLastD_mem_cons' xs b) with h | h
      · rw [h]
        exact le_refl _
      · exact List.rel_of_sorted_cons hs _ h
    · exact ih hs.of_cons b hmem x

theorem highAux_spec :
    ∀ (l : List MinuteBar) (a : ℚ),
      a ≤ highAux a l ∧ (highAux a l = a ∨ ∃ b ∈ l, highAux a l = b.high) ∧
      ∀ b ∈ l, b.high ≤ highAux a l := by
  intro l
  induction l with
  | nil => intro a; exact ⟨le_refl a, Or.inl rfl, by simp⟩
  | cons x xs ih =>
    intro a
    have hstep : highAux a (x :: xs) = highAux (if x.high > a then x.high else a) xs := rfl
    set a' := if x.high > a then x.high else a with ha'
    have haa : a ≤ a' := by rw [ha']; split <;> [linarith; exact le_refl a]
    have hxa : x.high ≤ a' := by rw [ha']; split <;> [exact le_refl _; linarith [not_lt.mp (by assumption)]]
    have ha'or : a' = a ∨ a' = x.high := by rw [ha']; split <;> [exact Or.inr rfl; exact Or.inl rfl]
    obtain ⟨ih1, ih2, ih3⟩ := ih a'
    rw [hstep]
    refine ⟨le_trans haa ih1, ?_, ?_⟩
    · rcases ih2 with h | ⟨b, hb, hbb⟩
      · rcases ha'or with h2 | h2
        · exact Or.inl (h.trans h2)
        · exact Or.inr ⟨x, List.mem_cons_self x xs, h.trans h2⟩
      · exact Or.inr ⟨b, List.mem_cons.mpr (Or.inr hb), hbb⟩
    · intro b hb
      rcases List.mem_cons.mp hb with rfl | hmem
      · exact le_trans hxa ih1
      · exact ih3 b hmem

theorem lowAux_spec :
    ∀ (l : List MinuteBar), (∀ b ∈ l, 0 < b.low) →
      ∀ a : ℚ, 0 < a →
        lowAux a l ≤ a ∧ (lowAux a l = a ∨ ∃ b ∈ l, lowAux a l = b.low) ∧
        0 < lowAux a l ∧ ∀ b ∈ l, lowAux a l ≤ b.low := by
  intro l
  induction l with
  | nil => intro _ a ha; exact ⟨le_refl a, Or.inl rfl, ha, by simp⟩
  | cons x xs ih =>
    intro hpos a ha
    have hxpos : 0 < x.low := hpos x (List.mem_cons_self x xs)
    have hstep : lowAux a (x :: xs) = lowAux (if x.low < a ∨ a = 0 then x.low else a) xs := rfl
    set a' := if x.low < a ∨ a = 0 then x.low else a with ha'
    have hfacts : (a' = x.low ∨ a' = a) ∧ a' ≤ a ∧ a' ≤ x.low ∧ 0 < a' := by
      by_cases hxa : x.low < a
      · have h1 : a' = x.low := by rw [ha', if_pos (Or.inl hxa)]
        exact ⟨Or.inl h1, by rw [h1]; linarith, by rw [h1], by rw [h1]; exact hxpos⟩
      · have h1 : a' = a := by
          rw [ha', if_neg]
          rintro (h | h)
          · exact hxa h
          · exact absurd h (ne_of_gt ha)
        exact ⟨Or.inr h1, by rw [h1], by rw [h1]; linarith [not_lt.mp hxa], by rw [h1]; exact ha⟩
    obtain ⟨ha'or, haa, hxa, ha'pos⟩ := hfacts
    obtain ⟨ih1, ih2, ih3, ih4⟩ := ih (fun b hb => hpos b (List.mem_cons.mpr (Or.inr hb))) a' ha'pos
    rw [hstep]
    refine ⟨le_trans ih1 haa, ?_, ih3, ?_⟩
    · rcases ih2 with h | ⟨b, hb, hbb⟩
      · rcases ha'or with h2 | h2
        · exact Or.inr ⟨x, List.mem_cons_self x xs, h.trans h2⟩
        · exact Or.inl (h.trans h2)
      · exact Or.inr ⟨b, List.mem_cons.mpr (Or.inr hb), hbb⟩
    · intro b hb
      rcases List.mem_cons.mp hb with rfl | hmem
      · exact le_trans ih1 hxa
      · exact ih4 b hmem

theorem volAux_eq_sum : ∀ (l : List MinuteBar) (a : Int),
    volAux a l = a + (l.map MinuteBar.volume).sum := by
  intro l
  induction l with
  | nil => intro a; simp [volAux]
  | cons x xs ih =>
    intro a
    have hstep : volAux a (x :: xs) = volAux (a + x.volume) xs := rfl
    rw [hstep, ih]
    simp
    ring

/-- C6 as amended: for every non-empty same-trading-date group all of whose
bars carry positive low and high prices (as every validator-accepted bar
does), the computed summary's open is the 2-decimal rounding of a
timestamp-minimal bar's open, its close the rounding of a timestamp-maximal
bar's close, its high the rounding of the maximum high, its low the rounding
of the minimum low, and its volume the exact sum of volumes; the two-bar
"ABC" example aggregates to open=100, high=102, low=99, close=101.8,
volume=3000. -/
theorem computeSummary_aggregates :
    (∀ (sym : String) (g : List MinuteBar), g ≠ [] →
      (∀ b ∈ g, 0 < b.low ∧ 0 < b.high) →
      (∃ first ∈ g, (∀ b ∈ g, first.timestamp.unix ≤ b.timestamp.unix) ∧
        (computeSummary sym g).open_ = roundToDecimal2 first.open_) ∧
      (∃ last ∈ g, (∀ b ∈ g, b.timestamp.unix ≤ last.timestamp.unix) ∧
        (computeSummary sym g).close = roundToDecimal2 last.close) ∧
      (∃ hi, (∃ b ∈ g, b.high = hi) ∧ (∀ b ∈ g, b.high ≤ hi) ∧
        (computeSummary sym g).high = roundToDecimal2 hi) ∧
      (∃ lo, (∃ b ∈ g, b.low = lo) ∧ (∀ b ∈ g, lo ≤ b.low) ∧
        (computeSummary sym g).low = roundToDecimal2 lo) ∧
      (computeSummary sym g).volume = (g.map MinuteBar.volume).sum) ∧
    computeSummary "ABC" [abcBar1, abcBar2] =
      ⟨"ABC", ⟨2024, 1, 9⟩, 100, 102, 99, 509/5, 3000⟩ := by
  constructor
  · intro sym g hne hpos
    have hperm : (sortBars g).Perm g := List.perm_insertionSort barLE g
    have hsorted : List.Sorted barLE (sortBars g) := List.sorted_insertionSort barLE g
    obtain ⟨s1, rest, hea⟩ : ∃ s1 rest, sortBars g = s1 :: rest := by
      cases hh : sortBars g with
      | nil =>
        exfalso
        apply hne
        have h2 := hperm
        rw [hh] at h2
        exact h2.symm.eq_nil
      | cons a l => exact ⟨a, l, rfl⟩
    have hmemg : ∀ b ∈ sortBars g, b ∈ g := fun b hb => hperm.mem_iff.mp hb
    have hmems : ∀ b ∈ g, b ∈ sortBars g := fun b hb => hperm.mem_iff.mpr hb
    refine ⟨?_, ?_, ?_, ?_, ?_⟩
    · -- open
      refine ⟨s1, hmemg s1 (hea ▸ List.mem_cons_self s1 rest), ?_, ?_⟩
      · intro b hb
        rcases List.mem_cons.mp (hea ▸ hmems b hb) with rfl | hmem
        · exact le_refl _
        · exact List.rel_of_sorted_cons (hea ▸ hsorted) b hmem
      · simp only [computeSummary, hea, List.headD_cons]
    · -- close
      set last := (sortBars g).getLastD defaultBar with hlast
      have hlmem : last ∈ sortBars g := by
        rw [hlast, hea, List.getLastD_cons]
        rcases List.mem_cons.mp (getLastD_mem_cons' rest s1) with h | h
        · rw [h]
          exact List.mem_cons_self s1 rest
        · exact List.mem_cons.mpr (Or.inr h)
      refine ⟨last, hmemg last hlmem, ?_, ?_⟩
      · intro b hb
        exact sorted_mem_le_getLastD (sortBars g) hsorted b (hmems b hb) defaultBar
      · simp only [computeSummary, hlast]
    · -- high
      obtain ⟨h0, hor, hub⟩ := highAux_spec (sortBars g) 0
      refine ⟨highAux 0 (sortBars g), ?_, ?_, ?_⟩
      · rcases hor with h | ⟨b, hb, hbb⟩
        · exfalso
          have hs1 : s1 ∈ sortBars g := hea ▸ List.mem_cons_self s1 rest
          have := hub s1 hs1
          have := (hpos s1 (hmemg s1 hs1)).2
          rw [h] at *
          linarith
        · exact ⟨b, hmemg b hb, hbb.symm⟩
      · intro b hb
        exact hub b (hmems b hb)
      · simp only [computeSummary]
    · -- low
      have hstep : lowAux 0 (sortBars g) = lowAux s1.low rest := by
        rw [hea]
        show lowAux (if s1.low < 0 ∨ (0:ℚ) = 0 then s1.low else 0) rest = _
        rw [if_pos (Or.inr rfl)]
      have hs1g : s1 ∈ g := hmemg s1 (hea ▸ List.mem_cons_self s1 rest)
      have hrestpos : ∀ b ∈ rest, 0 < b.low := by
        intro b hb
        exact (hpos b (hmemg b (hea ▸ List.mem_cons.mpr (Or.inr hb)))).1
      obtain ⟨hle, hor, hpos', hlb⟩ :=
        lowAux_spec rest hrestpos s1.low (hpos s1 hs1g).1
      refine ⟨lowAux 0 (sortBars g), ?_, ?_, ?_⟩
      · rw [hstep]
        rcases hor with h | ⟨b, hb, hbb⟩
        · exact ⟨s1, hs1g, h.symm⟩
        · exact ⟨b, hmemg b (hea ▸ List.mem_cons.mpr (Or.inr hb)), hbb.symm⟩
      · intro b hb
        rw [hstep]
        rcases List.mem_cons.mp (hea ▸ hmems b hb) with rfl | hmem
        · exact hle
        · exact hlb b hmem
      · simp only [computeSummary]
    · -- volume
      simp only [computeSummary]
      rw [volAux_eq_sum]
      have := (hperm.map MinuteBar.volume).sum_eq
      simpa using this
  · have hl : localDate (⟨1704810600, etOffset⟩ : GoTime) = ⟨2024, 1, 9⟩ := by decide
    norm_num [computeSummary, sortBars, List.insertionSort, List.orderedInsert, barLE,
      abcBar1, abcBar2, highAux, lowAux, volAux, roundToDecimal2, mathRound, hl]

/-- Counterexample to C6 as stated: in a group containing a zero low, the
accumulation rule (overwrite when smaller or when the accumulator is still 0)
returns 3 instead of the minimum 0; and an open with three decimal places is
stored rounded, not equal to the first bar's open. -/
theorem computeSummary_low_counterexample :
    (computeSummary "ABC" [c6bar1, c6bar2, c6bar3]).low = 3 ∧
    c6bar2 ∈ [c6bar1, c6bar2, c6bar3] ∧ c6bar2.low = 0 ∧
    (∀ b ∈ [c6bar1, c6bar2, c6bar3], (0:ℚ) ≤ b.low) ∧ (3:ℚ) ≠ 0 ∧
    (computeSummary "ABC" [c6bar1, c6bar2, c6bar3]).open_ = 10013/100 ∧
    (∀ b ∈ [c6bar1, c6bar2, c6bar3], c6bar1.timestamp.unix ≤ b.timestamp.unix) ∧
    c6bar1.open_ = 801/8 ∧ ((10013:ℚ)/100 ≠ 801/8) ∧
    (∀ b ∈ [c6bar1, c6bar2, c6bar3], etDate b.timestamp = ⟨2024, 1, 9⟩) := by
  refine ⟨?_, by simp, by norm_num [c6bar2], ?_, by norm_num, ?_, ?_, by norm_num [c6bar1], by norm_num, ?_⟩
  · norm_num [computeSummary, sortBars, List.insertionSort, List.orderedInsert, barLE,
      c6bar1, c6bar2, c6bar3, lowAux, roundToDecimal2, mathRound]
  · intro b hb
    simp only [List.mem_cons, List.not_mem_nil, or_false] at hb
    rcases hb with rfl | rfl | rfl
    · norm_num [c6bar1]
    · norm_num [c6bar2]
    · norm_num [c6bar3]
  · norm_num [computeSummary, sortBars, List.insertionSort, List.orderedInsert, barLE,
      c6bar1, c6bar2, c6bar3, roundToDecimal2, mathRound]
  · intro b hb
    simp only [List.mem_cons, List.not_mem_nil, or_false] at hb
    rcases hb with rfl | rfl | rfl
    · norm_num [c6bar1]
    · norm_num [c6bar1, c6bar2]
    · norm_num [c6bar1, c6bar3]
  · intro b hb
    simp only [List.mem_cons, List.not_mem_nil, or_false] at hb
    rcases hb with rfl | rfl | rfl
    · decide
    · decide
    · decide

/-- Witness for amended C6: the "ABC" example group satisfies the positivity
hypotheses and the aggregation conclusions hold for it. -/
theorem computeSummary_aggregates_witness :
    (∃ first ∈ [abcBar1, abcBar2],
      (∀ b ∈ [abcBar1, abcBar2], first.timestamp.unix ≤ b.timestamp.unix) ∧
      (computeSummary "ABC" [abcBar1, abcBar2]).open_ = roundToDecimal2 first.open_) ∧
    (∃ last ∈ [abcBar1, abcBar2],
      (∀ b ∈ [abcBar1, abcBar2], b.timestamp.unix ≤ last.timestamp.unix) ∧
      (computeSummary "ABC" [abcBar1, abcBar2]).close = roundToDecimal2 last.close) ∧
    (∃ hi, (∃ b ∈ [abcBar1, abcBar2], b.high = hi) ∧
      (∀ b ∈ [abcBar1, abcBar2], b.high ≤ hi) ∧
      (computeSummary "ABC" [abcBar1, abcBar2]).high = roundToDecimal2 hi) ∧
    (∃ lo, (∃ b ∈ [abcBar1, abcBar2], b.low = lo) ∧
      (∀ b ∈ [abcBar1, abcBar2], lo ≤ b.low) ∧
      (computeSummary "ABC" [abcBar1, abcBar2]).low = roundToDecimal2 lo) ∧
    (computeSummary "ABC" [abcBar1, abcBar2]).volume =
      ([abcBar1, abcBar2].map MinuteBar.volume).sum :=
  computeSummary_aggregates.1 "ABC" [abcBar1, abcBar2] (by simp)
    (by
      intro b hb
      simp only [List.mem_cons, List.not_mem_nil, or_false] at hb
      rcases hb with rfl | rfl
      · constructor <;> norm_num [abcBar1]
      · constructor <;> norm_num [abcBar2])
